import Mathlib

/-!
Shallow embedding of the mega monorepo pack-exchange and tree-update core:
`ceres/src/pack/monorepo.rs` and `gateway/src/api_service/mono_service.rs`.

Modelling conventions:
* SHA-1 object ids are modelled as strings (`Hash`).  Content addressing
  (a tree's id is the SHA-1 of its canonical serialization, a commit's id the
  SHA-1 of the commit serialization) is modelled by the serialization itself:
  `treeHash`/`commitHash` build a canonical string from the content.  Hashes
  that arrive from the wire or only ever live in database rows are plain hex
  strings.  Claims never rely on hash injectivity; the only structural fact
  used is that a commit's id strictly extends its parent's id (acyclicity).
* Normalized absolute monorepo paths are component lists: `[]` is `"/"`,
  `["a", "b"]` is `"/a/b"`.
* Rust panics (`unwrap` on `None`/`Err`) are modelled by `Option.none`
  results; storage-returning functions pass an explicit `Store` value.
-/

namespace Mega

/-- A SHA-1 object id, rendered as its hex string (see module comment). -/
abbrev Hash := String

/-- mercury `TreeItemMode`. -/
inductive TreeItemMode where
  | blob
  | blobExecutable
  | link
  | tree
  | commitLink
deriving DecidableEq, Repr

/-- canonical serialization tag of a tree item mode. -/
def TreeItemMode.tag : TreeItemMode → String
  | .blob => "b"
  | .blobExecutable => "x"
  | .link => "l"
  | .tree => "t"
  | .commitLink => "c"

/-- mercury `TreeItem`: `(mode, id, name)`. -/
structure TreeItem where
  mode : TreeItemMode
  id : Hash
  name : String
deriving DecidableEq, Repr

/-- canonical serialization of one tree item. -/
def TreeItem.ser (i : TreeItem) : String :=
  "(" ++ i.mode.tag ++ "," ++ i.name ++ "," ++ i.id ++ ")"

/-- canonical serialization of a tree item list. -/
def itemsSer : List TreeItem → String
  | [] => ""
  | i :: rest => i.ser ++ itemsSer rest

/-- The SHA-1 of a tree's canonical serialized form (content-addressed model). -/
def treeHash (items : List TreeItem) : Hash :=
  "tree:" ++ itemsSer items

/-- mercury `Tree`: id plus ordered tree items. -/
structure Tree where
  id : Hash
  tree_items : List TreeItem
deriving DecidableEq, Repr

/-- mercury `Tree::from_tree_items`: rebuild a tree, recomputing its id. -/
def Tree.from_tree_items (items : List TreeItem) : Tree :=
  { id := treeHash items, tree_items := items }

/-- canonical serialization of a commit's parent id list. -/
def parentsSer : List Hash → String
  | [] => ""
  | p :: ps => p ++ "," ++ parentsSer ps

/-- The SHA-1 of the canonical commit serialization (content-addressed model). -/
def commitHash (tree_id : Hash) (parents : List Hash)
    (author committer message : String) : Hash :=
  "commit:" ++ tree_id ++ ";" ++ parentsSer parents ++ ";" ++ author ++ ";"
    ++ committer ++ ";" ++ message

/-- mercury `Commit`. -/
structure Commit where
  id : Hash
  tree_id : Hash
  parent_commit_ids : List Hash
  author : String
  committer : String
  message : String
deriving DecidableEq, Repr

/-- mercury `Commit::new(author, committer, tree_id, parent_commit_ids, message)`. -/
def Commit.new (author committer : String) (tree_id : Hash)
    (parent_commit_ids : List Hash) (message : String) : Commit :=
  { id := commitHash tree_id parent_commit_ids author committer message
    tree_id := tree_id
    parent_commit_ids := parent_commit_ids
    author := author
    committer := committer
    message := message }

/-- Modelled from the spec: the fixed author used by `Commit::from_tree_id`
(mercury, not under src/): "synthesize a new commit ... no parents, fixed
author/message". -/
def MEGA_AUTHOR : String := "mega"

/-- mercury `Commit::from_tree_id(tree_id, parents, message)`. -/
def Commit.from_tree_id (tree_id : Hash) (parents : List Hash)
    (message : String) : Commit :=
  Commit.new MEGA_AUTHOR MEGA_AUTHOR tree_id parents message

/-- Modelled from the spec: `common::utils::MEGA_BRANCH_NAME` (not under
src/), the configurable synthetic default branch name (§6). -/
def MEGA_BRANCH_NAME : String := "refs/heads/main"

/-- A normalized absolute monorepo path as its component list; `[]` is `"/"`. -/
abbrev MPath := List String

/-- Ref table row: `(path, ref_name, ref_commit_hash, ref_tree_hash, default_branch)`. -/
structure MegaRef where
  path : MPath
  ref_name : String
  ref_commit_hash : Hash
  ref_tree_hash : Hash
  default_branch : Bool
deriving DecidableEq, Repr

/-- `mega_tree` table row: tree id, its items, and the `commit_id` lineage
stamp (`none` models the empty-string stamp). -/
structure MegaTreeRow where
  tree_id : Hash
  tree_items : List TreeItem
  commit_id : Option Hash
deriving DecidableEq, Repr

/-- Stored tree row → mercury `Tree` conversion. -/
def MegaTreeRow.toTree (r : MegaTreeRow) : Tree :=
  { id := r.tree_id, tree_items := r.tree_items }

/-- venus `MergeStatus`: `Open | Merged | Closed` (`opened` stands for `Open`). -/
inductive MergeStatus where
  | opened
  | merged
  | closed
deriving DecidableEq, Repr

/-- venus `MergeRequest` (`monorepo::mr`). -/
structure MergeRequest where
  id : Int
  path : MPath
  from_hash : Hash
  to_hash : Hash
  status : MergeStatus
deriving DecidableEq, Repr

/-- Modelled from the spec: venus `MergeRequest::close` (not under src/):
`close(reason)` → `Open` → `Closed`. -/
def MergeRequest.close (mr : MergeRequest) : MergeRequest :=
  { mr with status := .closed }

/-- Modelled from the spec: venus `MergeRequest::merge(comment)` (not under
src/): `merge(operator, comment)` → `Open` → `Merged`. -/
def MergeRequest.merge (mr : MergeRequest) (_comment : Option String) : MergeRequest :=
  { mr with status := .merged }

/-- callisto `ConvType`: conversation kinds. -/
inductive ConvType where
  | comment
  | forceUpdated
  | closed
  | merged
deriving DecidableEq, Repr

/-- `mega_conversation` table row. -/
structure Conversation where
  mr_id : Int
  user_id : Int
  conv_type : ConvType
  comment : Option String
deriving DecidableEq, Repr

/-- venus pack `ObjectType`. -/
inductive ObjectType where
  | commit
  | tree
  | blob
  | tag
deriving DecidableEq, Repr

/-- venus pack `Entry`: a typed, content-addressed object record produced by
the pack decoder: `(ObjectType, id, payload)`. -/
structure Entry where
  obj_type : ObjectType
  id : Hash
  data : String
deriving DecidableEq, Repr

/-- venus `Refs`: a wire-advertised ref (`ref_name`, `ref_hash`,
`default_branch`; the remaining fields of the source struct are only
defaulted and never read by the code under verification). -/
structure Refs where
  ref_name : String
  ref_hash : Hash
  default_branch : Bool
deriving DecidableEq, Repr

/-- The relational object store (all tables touched by the code under
verification).  `objects` holds raw entries ingested by
`batch_save_entries`/`storage.save_entry`. -/
structure Store where
  refs : List MegaRef
  commits : List Commit
  trees : List MegaTreeRow
  objects : List Entry
  mrs : List MergeRequest
  conversations : List Conversation
deriving DecidableEq, Repr

/-- Modelled from the spec: jupiter `get_ref(path) → Ref?` (§4.1; at most one
ref per path, `NotFound` is an absent value). -/
def get_ref (s : Store) (p : MPath) : Option MegaRef :=
  s.refs.find? (fun r => r.path = p)

/-- Modelled from the spec: jupiter `save_ref(path, commit_id, tree_id)`
(§4.1, §4.3: the synthesized ref is named with the configured default branch
name and flagged default). -/
def save_ref (s : Store) (p : MPath) (commit_id tree_id : Hash) : Store :=
  let r : MegaRef :=
    { path := p
      ref_name := MEGA_BRANCH_NAME
      ref_commit_hash := commit_id
      ref_tree_hash := tree_id
      default_branch := true }
  { s with refs := s.refs ++ [r] }

/-- Modelled from the spec: jupiter `update_ref(Ref)` (§4.1; the row is keyed
by `path`). -/
def update_ref (s : Store) (r : MegaRef) : Store :=
  { s with refs := s.refs.map (fun x => if x.path = r.path then r else x) }

/-- Modelled from the spec: jupiter `remove_ref(Ref)` (§4.1). -/
def remove_ref (s : Store) (r : MegaRef) : Store :=
  { s with refs := s.refs.filter (fun x => ¬ x.path = r.path) }

/-- Modelled from the spec: jupiter `remove_refs(path)` =
`remove_refs_with_prefix(path)` (§4.1): delete every ref whose path has the
given path as prefix. -/
def remove_refs (s : Store) (p : MPath) : Store :=
  { s with refs := s.refs.filter (fun x => ! p.isPrefixOf x.path) }

/-- Modelled from the spec: jupiter `get_commit_by_hash` (§4.1 `get_commit`). -/
def get_commit_by_hash (s : Store) (h : Hash) : Option Commit :=
  s.commits.find? (fun c => c.id = h)

/-- Modelled from the spec: jupiter `save_mega_commits` (§4.1 `save_commits`). -/
def save_mega_commits (s : Store) (cs : List Commit) : Store :=
  { s with commits := s.commits ++ cs }

/-- Modelled from the spec: jupiter `get_tree_by_hash` (§4.1 `get_tree`). -/
def get_tree_by_hash (s : Store) (h : Hash) : Option MegaTreeRow :=
  s.trees.find? (fun t => t.tree_id = h)

/-- Modelled from the spec: jupiter `batch_save_model` on `mega_tree` rows. -/
def batch_save_trees (s : Store) (ts : List MegaTreeRow) : Store :=
  { s with trees := s.trees ++ ts }

/-- Modelled from the spec: jupiter `storage.save_entry` /
`batch_save_entries([Entry])` (§4.1): persist a decoded batch (the dispatch
to per-kind tables is modelled as one raw entry table). -/
def storage_save_entry (s : Store) (es : List Entry) : Store :=
  { s with objects := s.objects ++ es }

/-- Modelled from the spec: jupiter `get_open_mr(path)` (§4.1; the open MR of
a path, via the `(path, status)` index). -/
def get_open_mr (s : Store) (p : MPath) : Option MergeRequest :=
  s.mrs.find? (fun mr => mr.path = p ∧ mr.status = .opened)

/-- Modelled from the spec: jupiter `get_open_mr_by_id(id)` (§4.1). -/
def get_open_mr_by_id (s : Store) (id : Int) : Option MergeRequest :=
  s.mrs.find? (fun mr => mr.id = id ∧ mr.status = .opened)

/-- Modelled from the spec: jupiter `save_mr` (§4.1). -/
def save_mr (s : Store) (mr : MergeRequest) : Store :=
  { s with mrs := s.mrs ++ [mr] }

/-- Modelled from the spec: jupiter `update_mr` (§4.1; the row is keyed by
`id`). -/
def update_mr (s : Store) (mr : MergeRequest) : Store :=
  { s with mrs := s.mrs.map (fun x => if x.id = mr.id then mr else x) }

/-- Modelled from the spec: jupiter `add_mr_comment(mr_id, user_id, comment)`
(§4.1 `add_mr_conversation` with kind `Comment`). -/
def add_mr_comment (s : Store) (mr_id : Int) (user_id : Int)
    (comment : Option String) : Store :=
  let c : Conversation :=
    { mr_id := mr_id, user_id := user_id, conv_type := .comment
      comment := comment }
  { s with conversations := s.conversations ++ [c] }

/-- Modelled from the spec: jupiter `add_mr_conversation(mr_id, user_id, kind)`
(§4.1). -/
def add_mr_conversation (s : Store) (mr_id : Int) (user_id : Int)
    (t : ConvType) : Store :=
  let c : Conversation :=
    { mr_id := mr_id, user_id := user_id, conv_type := t, comment := none }
  { s with conversations := s.conversations ++ [c] }

/-- The component loop of `MonorepoService::search_tree_by_path`
(mono_service.rs 291-320): find the item named like the component, fetch its
tree (the `.unwrap()` on the fetch panics when absent, modelled as `none`),
append the fetched tree to the parent chain except for the last component.
A missing name yields `GitError::ConversionError` (modelled as `.error`). -/
def search_loop (s : Store) :
    Tree → List Tree → List String → Option (Except String (List Tree × Tree))
  | t, acc, [] => some (.ok (acc, t))
  | t, acc, c :: rest =>
    match t.tree_items.find? (fun x => x.name = c) with
    | none => some (.error "can't find target parent tree under latest commit")
    | some item =>
      match get_tree_by_hash s item.id with
      | none => none
      | some row =>
        search_loop s row.toTree (if rest = [] then acc else acc ++ [row.toTree]) rest

/-- `MonorepoService::search_tree_by_path` (mono_service.rs 276-322): resolve
a path from the `"/"` ref's root tree, returning the chain of parent trees
(seeded with the root tree) and the target tree. -/
def search_tree_by_path (s : Store) (path : MPath) :
    Option (Except String (List Tree × Tree)) :=
  match get_ref s [] with
  | none => none
  | some refs =>
    match get_tree_by_hash s refs.ref_tree_hash with
    | none => none
    | some rootRow => search_loop s rootRow.toTree [rootRow.toTree] path

/-- `tree.tree_items.iter().position(|x| x.name == name).unwrap()` followed by
`tree.tree_items[index].id = target_hash` (mono_service.rs 340-341): replace
the id of the first item with the given name; `none` models the panic when no
item matches. -/
def setItemHash : List TreeItem → String → Hash → Option (List TreeItem)
  | [], _, _ => none
  | i :: rest, name, h =>
    if i.name = name then some ({ i with id := h } :: rest)
    else (setItemHash rest name h).map (fun l => i :: l)

/-- The `while let Some(tree) = tree_vec.pop()` loop of
`MonorepoService::update_parent_tree` (mono_service.rs 335-371), processing
the reversed parent chain.  Carries `(save_trees, p_commit_id, target_hash)`;
returns the store after ref/commit writes together with the trees to save and
the stamp. -/
def update_parent_tree_loop (commit : Commit) :
    Store → List Tree → MPath → List Tree → Option Hash → Hash →
    Option (Store × List Tree × Option Hash)
  | s, [], _path, save_trees, p_commit_id, _target =>
    some (s, save_trees, p_commit_id)
  | s, t :: rest, path, save_trees, p_commit_id, target_hash => do
    let name ← path.getLast?
    let path' := path.dropLast
    let items ← setItemHash t.tree_items name target_hash
    let new_tree := Tree.from_tree_items items
    let save_trees' := save_trees ++ [new_tree]
    match get_ref s path' with
    | some p_ref =>
      if path' = [] then
        let p_commit := Commit.new commit.author commit.committer new_tree.id
            [p_ref.ref_commit_hash] commit.message
        let new_ref := { p_ref with
          ref_commit_hash := p_commit.id
          ref_tree_hash := new_tree.id }
        let s1 := update_ref s new_ref
        let s2 := save_mega_commits s1 [p_commit]
        update_parent_tree_loop commit s2 rest path' save_trees'
          (some p_commit.id) new_tree.id
      else
        update_parent_tree_loop commit (remove_ref s p_ref) rest path'
          save_trees' p_commit_id new_tree.id
    | none =>
      update_parent_tree_loop commit s rest path' save_trees' p_commit_id
        new_tree.id

/-- `MonorepoService::update_parent_tree` (mono_service.rs 324-384): re-hash
the parent chain, create/advance the root commit and `"/"` ref when the walk
reaches `"/"`, then batch-save the new trees stamped with the new root
commit's id (the stamp stays `none`, the empty string, if the `"/"` branch
never ran). -/
def update_parent_tree (s : Store) (path : MPath) (tree_vec : List Tree)
    (commit : Commit) : Option Store := do
  let (s', save_trees, p_commit_id) ←
    update_parent_tree_loop commit s tree_vec.reverse path [] none commit.tree_id
  let rows := save_trees.map (fun t =>
    { tree_id := t.id, tree_items := t.tree_items,
      commit_id := p_commit_id : MegaTreeRow })
  some (batch_save_trees s' rows)

/-- venus `MergeOperation` (the fields the code reads). -/
structure MergeOperation where
  mr_id : Int
  comment : Option String
deriving DecidableEq, Repr

/-- venus `MergeResult`. -/
structure MergeResult where
  result : Bool
  err_message : String
deriving DecidableEq, Repr

/-- `MonorepoService::merge_mr` (mono_service.rs 212-262). -/
def merge_mr (s : Store) (op : MergeOperation) : Option (MergeResult × Store) :=
  match get_open_mr_by_id s op.mr_id with
  | some mr =>
    match get_ref s mr.path with
    | none => none
    | some refs =>
      if mr.from_hash = refs.ref_commit_hash then
        let mr' := mr.merge op.comment
        let s1 := update_mr s mr'
        match get_commit_by_hash s1 mr'.to_hash with
        | none => none
        | some commit =>
          let s2 := add_mr_conversation s1 mr'.id 0 .merged
          if mr'.path ≠ [] then
            match search_tree_by_path s2 mr'.path.dropLast with
            | none => none
            | some (.error _) => none
            | some (.ok (tree_vec, _)) =>
              match update_parent_tree s2 mr'.path tree_vec commit with
              | none => none
              | some s3 =>
                let s4 := remove_refs s3 mr'.path
                some ({ result := true, err_message := "" }, s4)
          else
            some ({ result := true, err_message := "" }, s2)
      else
        some ({ result := false, err_message := "ref hash conflict" }, s)
  | none => some ({ result := false, err_message := "Invalid mr id" }, s)

/-- ceres `MonoRepo`: the pack handler's binding `(path, from_hash?, to_hash?)`
(monorepo.rs 29-34; the storage context is passed separately as `Store`). -/
structure MonoRepo where
  path : MPath
  from_hash : Option Hash
  to_hash : Option Hash
deriving DecidableEq, Repr

/-- Modelled from the spec: the stored-ref → wire-ref conversion
(`result.unwrap().into()` in monorepo.rs 43; the `Into` impl is not under
src/): the advertised ref carries the stored name, commit hash and default
flag. -/
def megaRefToRefs (r : MegaRef) : Refs :=
  { ref_name := r.ref_name, ref_hash := r.ref_commit_hash,
    default_branch := r.default_branch }

/-- The component walk of `MonoRepo::head_hash` (monorepo.rs 68-87): find the
item named like the component (mode is not inspected) and fetch its tree.
`some none` models the early `return check_head_hash(vec![])` when a name is
absent; `none` models the panic when a name matches but no tree row exists. -/
def head_walk (s : Store) : Tree → List String → Option (Option Tree)
  | t, [] => some (some t)
  | t, c :: rest =>
    match t.tree_items.find? (fun x => x.name = c) with
    | none => some none
    | some item =>
      match get_tree_by_hash s item.id with
      | none => none
      | some row => head_walk s row.toTree rest

/-- `MonoRepo::head_hash` (monorepo.rs 38-115).  `check_head_hash` (not under
src/) only prepends the pkt-line preamble to the refs it is given (§6), so the
embedding returns the refs list and the resulting store. -/
def MonoRepo.head_hash (repo : MonoRepo) (s : Store) : Option (List Refs × Store) :=
  match get_ref s repo.path with
  | some r => some ([megaRefToRefs r], s)
  | none =>
    match get_ref s [] with
    | none => none
    | some rootRef =>
      match get_commit_by_hash s rootRef.ref_commit_hash with
      | none => none
      | some commit =>
        match get_tree_by_hash s commit.tree_id with
        | none => none
        | some rootRow =>
          match head_walk s rootRow.toTree repo.path with
          | none => none
          | some none => some ([], s)
          | some (some tree) =>
            let c := Commit.from_tree_id tree.id []
                "This commit was generated by mega for maintain refs"
            let s1 := save_ref s repo.path c.id c.tree_id
            let s2 := save_mega_commits s1 [c]
            some ([{ ref_name := MEGA_BRANCH_NAME, ref_hash := c.id,
                     default_branch := true }], s2)

/-- `MonoRepo::get_mr` (monorepo.rs 264-282): the open MR of the bound path,
or a fresh one built from the binding (the venus `Default` gives id `0` and,
modelled from the spec §4.4, the implicit initial status `Open`).  `none`
models the `unwrap` panics when the binding lacks a hash. -/
def MonoRepo.get_mr (repo : MonoRepo) (s : Store) : Option (MergeRequest × Bool) :=
  match get_open_mr s repo.path with
  | some mr => some (mr, true)
  | none => do
    let fh ← repo.from_hash
    let th ← repo.to_hash
    some ({ id := 0, path := repo.path, from_hash := fh, to_hash := th,
            status := .opened }, false)

/-- `MonoRepo::comment_for_force_update` (monorepo.rs 284-290).  The source
slices `&hash[..6]` of 40-character hex strings; `String.take 6` is its total
model. -/
def comment_for_force_update (f t : Hash) : String :=
  "Mega updated the mr automatic from " ++ f.take 6 ++ " to " ++ t.take 6

/-- The receiver loop of `MonoRepo::save_entry` (monorepo.rs 292-309): count
commit entries and persist in batches of 1,000, with a final flush. -/
def save_entry_loop : Store → List Entry → List Entry → Nat → Nat × Store
  | s, buf, [], commit_size => (commit_size, storage_save_entry s buf)
  | s, buf, e :: rest, commit_size =>
    let commit_size := if e.obj_type = .commit then commit_size + 1 else commit_size
    let buf := buf ++ [e]
    if buf.length ≥ 1000 then
      save_entry_loop (storage_save_entry s buf) [] rest commit_size
    else
      save_entry_loop s buf rest commit_size

/-- `MonoRepo::save_entry` (monorepo.rs 292-309): returns the number of commit
entries observed and the store with every entry persisted. -/
def MonoRepo.save_entry (s : Store) (entries : List Entry) : Nat × Store :=
  save_entry_loop s [] entries 0

/-- The `commit_size > 1` epilogue of `MonoRepo::unpack` (monorepo.rs
156-166): `mr.close()` only mutates the in-memory value; the source records
the conversation and performs no further `update_mr`/`save_mr`. -/
def multi_commit_check (s : Store) (mr : MergeRequest) (commit_size : Nat) : Store :=
  if commit_size > 1 then
    add_mr_comment s (mr.close).id 0
      (some "Mega closed MR due to multi commit detected")
  else s

/-- `MonoRepo::unpack` (monorepo.rs 122-168), with the decoded entry stream as
input (`decode_for_receiver` is the external pack decoder, §6). -/
def MonoRepo.unpack (repo : MonoRepo) (s : Store) (entries : List Entry) :
    Option Store := do
  let (mr, mr_exist) ← repo.get_mr s
  if mr_exist then
    let fh ← repo.from_hash
    if mr.from_hash = fh then
      let th ← repo.to_hash
      if mr.to_hash ≠ th then
        let comment := comment_for_force_update mr.to_hash th
        let mr1 := { mr with to_hash := th }
        let s1 := add_mr_comment s mr1.id 0 (some comment)
        let (commit_size, s2) := MonoRepo.save_entry s1 entries
        let s3 := update_mr s2 mr1
        some (multi_commit_check s3 mr1 commit_size)
      else
        let s3 := update_mr s mr
        some (multi_commit_check s3 mr 0)
    else
      let mr1 := mr.close
      let s1 := add_mr_comment s mr1.id 0 (some "Mega closed MR due to conflict")
      let s3 := update_mr s1 mr1
      some (multi_commit_check s3 mr1 0)
  else
    let (commit_size, s1) := MonoRepo.save_entry s entries
    let s2 := save_mr s1 mr
    some (multi_commit_check s2 mr commit_size)

/-! ### Concrete fixtures

A small populated store: a root tree with a subdirectory `a` (holding one
blob) and a blob entry `b` directly under the root, the root commit, and the
`"/"` ref. -/

/-- Fixture: the subtree at `/a`. -/
def aTree : Tree := Tree.from_tree_items
  [{ mode := .blob, id := "blob-f", name := "f.txt" }]

/-- Fixture: the items of the root tree. -/
def rootItems : List TreeItem :=
  [{ mode := .tree, id := aTree.id, name := "a" },
   { mode := .blob, id := "blob-b", name := "b" }]

/-- Fixture: the root tree. -/
def rootTree : Tree := Tree.from_tree_items rootItems

/-- Fixture: the root commit. -/
def rootCommit : Commit := Commit.new "alice" "alice" rootTree.id [] "init"

/-- Fixture: the populated base store. -/
def baseStore : Store :=
  { refs := [{ path := [], ref_name := MEGA_BRANCH_NAME,
               ref_commit_hash := rootCommit.id, ref_tree_hash := rootTree.id,
               default_branch := true }]
    commits := [rootCommit]
    trees := [{ tree_id := rootTree.id, tree_items := rootItems,
                commit_id := some rootCommit.id },
              { tree_id := aTree.id, tree_items := aTree.tree_items,
                commit_id := some rootCommit.id }]
    objects := []
    mrs := []
    conversations := [] }

/-- Fixture: a commit pack entry. -/
def entryC1 : Entry := { obj_type := .commit, id := "c1", data := "d1" }

/-- Fixture: a second commit pack entry. -/
def entryC2 : Entry := { obj_type := .commit, id := "c2", data := "d2" }

/-- Fixture: a fresh push binding on `/a` (no open MR in `baseStore`). -/
def repoFresh : MonoRepo :=
  { path := ["a"], from_hash := some "H0", to_hash := some "H2" }

/-- Fixture: an open MR on `/a` (from `aaaaaaaaaa`, to `bbbbbbbbbb`). -/
def mrOpenA : MergeRequest :=
  { id := 1, path := ["a"], from_hash := "aaaaaaaaaa",
    to_hash := "bbbbbbbbbb", status := .opened }

/-- Fixture: `baseStore` with the open MR `mrOpenA` on `/a`. -/
def mrStore : Store := { baseStore with mrs := [mrOpenA] }

/-- Fixture: a force-update push binding on `/a` (same from, new to). -/
def repoForce : MonoRepo :=
  { path := ["a"], from_hash := some "aaaaaaaaaa", to_hash := some "cccccccccc" }

/-- Fixture: a conflicting push binding on `/a` (different from). -/
def repoConflict : MonoRepo :=
  { path := ["a"], from_hash := some "dddddddddd", to_hash := some "cccccccccc" }

/-- Fixture: the binding used for `head_hash` on `/a`. -/
def repoA : MonoRepo := { path := ["a"], from_hash := none, to_hash := none }

/-- Fixture: the commit synthesized by `head_hash` for `/a` on `baseStore`. -/
def synthACommit : Commit := Commit.from_tree_id aTree.id []
  "This commit was generated by mega for maintain refs"

/-- Fixture: the store after `head_hash` on `/a` synthesized its ref. -/
def storeAfterHeadA : Store :=
  save_mega_commits (save_ref baseStore ["a"] synthACommit.id synthACommit.tree_id)
    [synthACommit]

/-- Fixture: the refs returned by `head_hash` on `/a`. -/
def refsAfterHeadA : List Refs :=
  [{ ref_name := MEGA_BRANCH_NAME, ref_hash := synthACommit.id,
     default_branch := true }]

/-- Fixture: the tree of the merged MR commit. -/
def mrCommitTree : Tree := Tree.from_tree_items
  [{ mode := .blob, id := "blob-g", name := "g.txt" }]

/-- Fixture: the merged MR's tip commit. -/
def mrCommit : Commit := Commit.new "bob" "bob" mrCommitTree.id [] "mr commit"

/-- Fixture: an open MR (id 7) at `/a` whose `from_hash` matches the
synthetic `/a` ref of `mergeStore`. -/
def mrA7 : MergeRequest :=
  { id := 7, path := ["a"], from_hash := "synthA", to_hash := mrCommit.id,
    status := .opened }

/-- Fixture: `baseStore` with synthetic refs at `/a` and `/a/sub` and the
open MR `mrA7` at `/a`. -/
def mergeStore : Store := { baseStore with
  refs := baseStore.refs ++
    [{ path := ["a"], ref_name := MEGA_BRANCH_NAME, ref_commit_hash := "synthA",
       ref_tree_hash := aTree.id, default_branch := true },
     { path := ["a", "sub"], ref_name := MEGA_BRANCH_NAME,
       ref_commit_hash := "synthSub", ref_tree_hash := "whatever",
       default_branch := true }]
  commits := baseStore.commits ++ [mrCommit]
  mrs := [mrA7] }

/-- Fixture: the merge operation for MR id 7. -/
def mergeOp7 : MergeOperation := { mr_id := 7, comment := some "lgtm" }

/-- Fixture: the store produced by the successful depth-one merge of MR 7. -/
def depth1After : Store :=
  ((merge_mr mergeStore mergeOp7).getD
    ({ result := false, err_message := "" }, mergeStore)).2

/-- Fixture: an open MR (id 3) at the root path `"/"` whose `from_hash`
matches the `"/"` ref, on a store that also has a synthetic ref at `/a`. -/
def rootMrStore : Store := { baseStore with
  refs := baseStore.refs ++
    [{ path := ["a"], ref_name := MEGA_BRANCH_NAME, ref_commit_hash := "synthA",
       ref_tree_hash := aTree.id, default_branch := true }]
  commits := baseStore.commits ++ [mrCommit]
  mrs := [{ id := 3, path := [], from_hash := rootCommit.id,
            to_hash := mrCommit.id, status := .opened }] }

/-- Fixture: the merge operation for the root-path MR id 3. -/
def mergeOp3 : MergeOperation := { mr_id := 3, comment := some "ok" }

/-- Fixture: the root MR of `rootMrStore`. -/
def rootMr : MergeRequest :=
  { id := 3, path := [], from_hash := rootCommit.id, to_hash := mrCommit.id,
    status := .opened }

/-- Fixture: the store after merging the root-path MR id 3. -/
def rootMergeAfter : Store :=
  add_mr_conversation (update_mr rootMrStore (rootMr.merge (some "ok"))) 3 0 .merged

/-- Fixture: depth-2 monorepo: `/x/y` subtree chain. -/
def yTree : Tree := Tree.from_tree_items
  [{ mode := .blob, id := "blob-z", name := "z" }]

/-- Fixture: the `/x` subtree, holding `y`. -/
def xTree : Tree := Tree.from_tree_items
  [{ mode := .tree, id := yTree.id, name := "y" }]

/-- Fixture: depth-2 root items (just `x`). -/
def root2Items : List TreeItem := [{ mode := .tree, id := xTree.id, name := "x" }]

/-- Fixture: depth-2 root tree. -/
def root2 : Tree := Tree.from_tree_items root2Items

/-- Fixture: depth-2 root commit. -/
def root2Commit : Commit := Commit.new "alice" "alice" root2.id [] "init2"

/-- Fixture: a store with an open MR (id 9) at the depth-2 path `/x/y` whose
`from_hash` matches the `/x/y` ref. -/
def store2 : Store :=
  { refs := [{ path := [], ref_name := MEGA_BRANCH_NAME,
               ref_commit_hash := root2Commit.id, ref_tree_hash := root2.id,
               default_branch := true },
             { path := ["x", "y"], ref_name := MEGA_BRANCH_NAME,
               ref_commit_hash := "synthXY", ref_tree_hash := yTree.id,
               default_branch := true }]
    commits := [root2Commit, mrCommit]
    trees := [{ tree_id := root2.id, tree_items := root2Items, commit_id := none },
              { tree_id := xTree.id, tree_items := xTree.tree_items, commit_id := none },
              { tree_id := yTree.id, tree_items := yTree.tree_items, commit_id := none }]
    objects := []
    mrs := [{ id := 9, path := ["x", "y"], from_hash := "synthXY",
              to_hash := mrCommit.id, status := .opened }]
    conversations := [] }

/-- Fixture: the merge operation for the depth-2 MR id 9. -/
def mergeOp9 : MergeOperation := { mr_id := 9, comment := none }

/-! ### Helper lemmas -/

/-- Saving commits does not touch the ref table. -/
lemma get_ref_save_mega_commits (s : Store) (cs : List Commit) (p : MPath) :
    get_ref (save_mega_commits s cs) p = get_ref s p := rfl

/-- After `save_ref` on a path that had no ref, `get_ref` finds the new row. -/
lemma get_ref_save_ref_self (s : Store) (p : MPath) (c t : Hash)
    (h : get_ref s p = none) :
    get_ref (save_ref s p c t) p =
      some { path := p, ref_name := MEGA_BRANCH_NAME, ref_commit_hash := c,
             ref_tree_hash := t, default_branch := true } := by
  simp only [get_ref, save_ref] at *
  rw [List.find?_append, h]
  simp

/-- Acyclicity of content addressing: a commit's id differs from its (sole)
parent's id. -/
lemma commitHash_ne_parent (t p : Hash) (a c m : String) :
    commitHash t [p] a c m ≠ p := by
  intro h
  have hl := congrArg String.length h
  simp only [commitHash, parentsSer, String.length_append] at hl
  have h1 : ("commit:" : String).length = 7 := rfl
  have h2 : (";" : String).length = 1 := rfl
  have h3 : ("," : String).length = 1 := rfl
  have h4 : ("" : String).length = 0 := rfl
  simp only [h1, h2, h3, h4] at hl
  omega

/-- The batch loop of `save_entry` counts the commit entries and, batch
boundaries notwithstanding, persists exactly the buffered and incoming
entries in order. -/
lemma save_entry_loop_spec (entries : List Entry) :
    ∀ (s : Store) (buf : List Entry) (n : Nat),
    save_entry_loop s buf entries n =
      (n + (entries.filter (fun e => e.obj_type = .commit)).length,
       { s with objects := s.objects ++ buf ++ entries }) := by
  induction entries with
  | nil =>
    intro s buf n
    simp [save_entry_loop, storage_save_entry]
  | cons e rest ih =>
    intro s buf n
    simp only [save_entry_loop]
    by_cases hc : e.obj_type = .commit
    · simp only [hc, if_pos, List.filter_cons]
      split
      · rw [ih]
        simp [storage_save_entry, Prod.ext_iff, Store.mk.injEq, hc]
        omega
      · rw [ih]
        simp [storage_save_entry, Prod.ext_iff, Store.mk.injEq, hc]
        omega
    · simp only [hc, if_neg, List.filter_cons]
      split
      · rw [ih]
        simp [storage_save_entry, Prod.ext_iff, Store.mk.injEq, hc]
      · rw [ih]
        simp [storage_save_entry, Prod.ext_iff, Store.mk.injEq, hc]

/-- `save_entry` counts commit entries and appends all entries to the raw
object table. -/
lemma save_entry_spec (s : Store) (entries : List Entry) :
    MonoRepo.save_entry s entries =
      ((entries.filter (fun e => e.obj_type = .commit)).length,
       { s with objects := s.objects ++ entries }) := by
  simp [MonoRepo.save_entry, save_entry_loop_spec]

/-- Shape of a successful resolver walk: for the empty path the seed chain is
returned unchanged with the current tree as target; for a nonempty path the
chain is extended by exactly one tree per component except the last. -/
lemma search_loop_shape :
    ∀ (p : List String) (s : Store) (t : Tree) (acc anc : List Tree) (tgt : Tree),
    search_loop s t acc p = some (.ok (anc, tgt)) →
    (p = [] → anc = acc ∧ tgt = t) ∧
    (p ≠ [] → ∃ ext, anc = acc ++ ext ∧ ext.length + 1 = p.length) := by
  intro p
  induction p with
  | nil =>
    intro s t acc anc tgt h
    simp only [search_loop, Option.some.injEq, Except.ok.injEq, Prod.mk.injEq] at h
    refine ⟨fun _ => ?_, fun hne => absurd rfl hne⟩
    exact ⟨h.1.symm, h.2.symm⟩
  | cons c rest ih =>
    intro s t acc anc tgt h
    refine ⟨fun hc => absurd hc (List.cons_ne_nil c rest), fun _ => ?_⟩
    simp only [search_loop] at h
    split at h
    · simp at h
    · rename_i item hf
      split at h
      · simp at h
      · rename_i row hg
        by_cases hr : rest = []
        · subst hr
          simp only [if_pos] at h
          have := (ih s row.toTree acc anc tgt h).1 rfl
          exact ⟨[], by simpa using this.1, by simp⟩
        · rw [if_neg hr] at h
          obtain ⟨ext, hanc, hlen⟩ := (ih s row.toTree (acc ++ [row.toTree]) anc tgt h).2 hr
          refine ⟨row.toTree :: ext, by simpa [List.append_assoc] using hanc, ?_⟩
          simp only [List.length_cons]
          omega

/-- The resolver walk meets a component whose name matches a tree item that
has no stored tree behind it (in particular a `Blob` item): the walk of
`search_tree_by_path`, started at the given tree, reaches a failing
`get_tree_by_hash` lookup. -/
inductive WalkHitsBlob (s : Store) : Tree → List String → Prop
  | here {t : Tree} {c : String} {rest : List String} {item : TreeItem} :
      t.tree_items.find? (fun x => x.name = c) = some item →
      item.mode = .blob →
      get_tree_by_hash s item.id = none →
      WalkHitsBlob s t (c :: rest)
  | there {t : Tree} {c : String} {rest : List String} {item : TreeItem}
      {row : MegaTreeRow} :
      t.tree_items.find? (fun x => x.name = c) = some item →
      get_tree_by_hash s item.id = some row →
      WalkHitsBlob s row.toTree rest →
      WalkHitsBlob s t (c :: rest)

/-- A walk that hits a backing-less (blob) item makes the resolver loop
panic, whatever the accumulated chain. -/
lemma search_loop_hits_none {s : Store} {t : Tree} {p : List String}
    (h : WalkHitsBlob s t p) : ∀ acc, search_loop s t acc p = none := by
  induction h with
  | here hf _ hg =>
    intro acc
    simp [search_loop, hf, hg]
  | there hf hg _ ih =>
    intro acc
    simp only [search_loop, hf, hg]
    exact ih _

/-- The `update_parent_tree` loop only writes refs and commits: merge
requests, conversations and raw objects are untouched. -/
lemma update_parent_tree_loop_frame (commit : Commit) :
    ∀ (tv : List Tree) (s : Store) (path : MPath) (st : List Tree)
      (pc : Option Hash) (th : Hash) (s' : Store) (st' : List Tree)
      (pc' : Option Hash),
    update_parent_tree_loop commit s tv path st pc th = some (s', st', pc') →
    s'.mrs = s.mrs ∧ s'.conversations = s.conversations ∧
      s'.objects = s.objects ∧ s'.trees = s.trees := by
  intro tv
  induction tv with
  | nil =>
    intro s path st pc th s' st' pc' h
    simp only [update_parent_tree_loop, Option.some.injEq, Prod.mk.injEq] at h
    rw [← h.1]
    exact ⟨rfl, rfl, rfl, rfl⟩
  | cons t rest ih =>
    intro s path st pc th s' st' pc' h
    simp only [update_parent_tree_loop, Option.bind_eq_bind, Option.bind_eq_some] at h
    obtain ⟨name, hname, h⟩ := h
    obtain ⟨items, hitems, h⟩ := h
    split at h
    · rename_i p_ref hpref
      split at h
      · have hr := ih _ _ _ _ _ _ _ _ h
        simpa [save_mega_commits, update_ref] using hr
      · have hr := ih _ _ _ _ _ _ _ _ h
        simpa [remove_ref] using hr
    · exact ih _ _ _ _ _ _ _ _ h

/-- `update_parent_tree` only writes refs, commits and trees. -/
lemma update_parent_tree_frame (s : Store) (path : MPath) (tv : List Tree)
    (commit : Commit) (s' : Store)
    (h : update_parent_tree s path tv commit = some s') :
    s'.mrs = s.mrs ∧ s'.conversations = s.conversations ∧
      s'.objects = s.objects := by
  simp only [update_parent_tree, Option.bind_eq_bind, Option.bind_eq_some] at h
  obtain ⟨⟨sx, stx, pcx⟩, hx, h⟩ := h
  have hf := update_parent_tree_loop_frame commit _ _ _ _ _ _ _ _ _ hx
  simp only [Option.some.injEq] at h
  rw [← h]
  simp [batch_save_trees, hf.1, hf.2.1, hf.2.2.1]

/-- The `update_mr` row map keeps a row for the updated id when the original
row was present. -/
lemma mem_map_update (l : List MergeRequest) (mr mr' : MergeRequest)
    (hmem : mr ∈ l) (hid : mr'.id = mr.id) :
    mr' ∈ l.map (fun x => if x.id = mr'.id then mr' else x) := by
  have h := List.mem_map_of_mem (fun x => if x.id = mr'.id then mr' else x) hmem
  simpa [hid] using h

/-- After the `update_mr` row map, every row carrying the updated id is the
updated row. -/
lemma map_update_unique (l : List MergeRequest) (mr' : MergeRequest) :
    ∀ x ∈ l.map (fun x => if x.id = mr'.id then mr' else x),
      x.id = mr'.id → x = mr' := by
  intro x hx hid
  simp only [List.mem_map] at hx
  obtain ⟨y, _, hxy⟩ := hx
  by_cases h : y.id = mr'.id
  · rw [← hxy]
    simp [h]
  · rw [← hxy] at hid
    simp only [if_neg h] at hid
    exact absurd hid h

/-- An open MR found for a path is a member of the MR table, lies on that
path, and is `Open`. -/
lemma get_open_mr_facts (s : Store) (p : MPath) (mr : MergeRequest)
    (h : get_open_mr s p = some mr) :
    mr ∈ s.mrs ∧ mr.path = p ∧ mr.status = .opened := by
  refine ⟨List.mem_of_find?_eq_some h, ?_⟩
  have hp := List.find?_some h
  simpa using hp

/-- `get_ref` is unaffected by MR-table writes. -/
lemma get_ref_update_mr (x : Store) (m : MergeRequest) (p : MPath) :
    get_ref (update_mr x m) p = get_ref x p := rfl

/-- `get_ref` is unaffected by conversation writes. -/
lemma get_ref_add_mr_conversation (x : Store) (i u : Int) (t : ConvType)
    (p : MPath) : get_ref (add_mr_conversation x i u t) p = get_ref x p := rfl

/-- `get_tree_by_hash` is unaffected by MR-table writes. -/
lemma get_tree_update_mr (x : Store) (m : MergeRequest) (h : Hash) :
    get_tree_by_hash (update_mr x m) h = get_tree_by_hash x h := rfl

/-- `get_tree_by_hash` is unaffected by conversation writes. -/
lemma get_tree_add_mr_conversation (x : Store) (i u : Int) (t : ConvType)
    (h : Hash) : get_tree_by_hash (add_mr_conversation x i u t) h =
      get_tree_by_hash x h := rfl

/-- Filtering out the rows prefixed by a nonempty path does not change the
first row found at the root path. -/
lemma find?_root_of_filter (a : String) (l : List String)
    (rows : List MegaRef) :
    (rows.filter (fun x => ! (a :: l).isPrefixOf x.path)).find?
        (fun r => r.path = ([] : MPath)) =
      rows.find? (fun r => r.path = ([] : MPath)) := by
  induction rows with
  | nil => rfl
  | cons r rows ih =>
    rw [List.filter_cons]
    by_cases hp : (a :: l).isPrefixOf r.path = true
    · have hne : ¬ ((decide (r.path = ([] : MPath))) = true) := by
        intro hd
        have hnil := of_decide_eq_true hd
        rw [hnil] at hp
        cases hp
      rw [if_neg (show ¬ ((!(a :: l).isPrefixOf r.path) = true) by simp [hp]),
        ih]
      exact (@List.find?_cons_of_neg MegaRef
        (fun r => decide (r.path = ([] : MPath))) r rows hne).symm
    · have hp' : (a :: l).isPrefixOf r.path = false := by
        cases hb : (a :: l).isPrefixOf r.path
        · rfl
        · exact absurd hb hp
      simp only [hp', Bool.not_false, if_true]
      by_cases hz : r.path = ([] : MPath)
      · rw [List.find?_cons_of_pos _ (by simp [hz]),
          List.find?_cons_of_pos _ (by simp [hz])]
      · rw [List.find?_cons_of_neg _ (by simp [hz]),
          List.find?_cons_of_neg _ (by simp [hz]), ih]

/-- `get_ref` at the root survives `remove_refs` of a nonempty path. -/
lemma get_ref_remove_refs_root (x : Store) (a : String) (l : List String) :
    get_ref (remove_refs x (a :: l)) [] = get_ref x [] := by
  simp only [get_ref, remove_refs]
  exact find?_root_of_filter a l x.refs

/-- After the `update_ref` row map, the ref found at the updated path is the
updated row. -/
lemma find?_path_update (p : MPath) (r0 nr : MegaRef) (rows : List MegaRef)
    (h : rows.find? (fun r => r.path = p) = some r0) (hp : nr.path = r0.path) :
    (rows.map (fun y => if y.path = nr.path then nr else y)).find?
      (fun r => r.path = p) = some nr := by
  induction rows with
  | nil => exact Option.noConfusion h
  | cons r rows ih =>
    rw [List.map_cons]
    by_cases hz : r.path = p
    · rw [List.find?_cons_of_pos _ (by simp [hz])] at h
      obtain rfl := (Option.some.injEq _ _).mp h
      have hcond : r.path = nr.path := by rw [hp]
      rw [if_pos hcond]
      exact List.find?_cons_of_pos _ (by simp [hp, hz])
    · rw [List.find?_cons_of_neg _ (by simp [hz])] at h
      have h0 : r0.path = p := by simpa using List.find?_some h
      have hcond : ¬ (r.path = nr.path) := by
        rw [hp, h0]
        exact hz
      rw [if_neg hcond, List.find?_cons_of_neg _ (by simp [hz])]
      exact ih h

/-- `get_ref` after `update_ref` of a row that was present. -/
lemma get_ref_update_ref_found (x : Store) (p : MPath) (r0 nr : MegaRef)
    (h : get_ref x p = some r0) (hp : nr.path = r0.path) :
    get_ref (update_ref x nr) p = some nr := by
  simp only [get_ref, update_ref]
  exact find?_path_update p r0 nr x.refs h hp

/-- Forward computation of `update_parent_tree` for a depth-one path with the
singleton parent chain: the enclosing (root) tree is re-hashed, a new root
commit is created whose sole parent is the previous root ref commit, the
`"/"` ref is advanced to it, and the new tree is saved stamped with the new
commit's id. -/
lemma update_parent_tree_depth1 (s2 : Store) (a : String) (t0 : Tree)
    (commit : Commit) (rr2 : MegaRef) (items : List TreeItem)
    (hroot : get_ref s2 [] = some rr2)
    (hset : setItemHash t0.tree_items a commit.tree_id = some items) :
    update_parent_tree s2 [a] [t0] commit =
      some (batch_save_trees
        (save_mega_commits
          (update_ref s2 { rr2 with
            ref_commit_hash := (Commit.new commit.author commit.committer
              (Tree.from_tree_items items).id [rr2.ref_commit_hash]
              commit.message).id
            ref_tree_hash := (Tree.from_tree_items items).id })
          [Commit.new commit.author commit.committer
            (Tree.from_tree_items items).id [rr2.ref_commit_hash]
            commit.message])
        [{ tree_id := (Tree.from_tree_items items).id, tree_items := items,
           commit_id := some (Commit.new commit.author commit.committer
             (Tree.from_tree_items items).id [rr2.ref_commit_hash]
             commit.message).id }]) := by
  simp [update_parent_tree, update_parent_tree_loop, hset, hroot,
    Tree.from_tree_items]

/-- Forward computation of `update_parent_tree` when the leaf name is absent
from the parent tree: the `position(..).unwrap()` panics. -/
lemma update_parent_tree_depth1_none (s2 : Store) (a : String) (t0 : Tree)
    (commit : Commit)
    (hset : setItemHash t0.tree_items a commit.tree_id = none) :
    update_parent_tree s2 [a] [t0] commit = none := by
  simp [update_parent_tree, update_parent_tree_loop, hset]

/-! ### Claim theorems -/

/-- C1: a fresh push whose pack stream carries two commit entries ends with
the ingested entries persisted and the "multi commit detected" conversation
recorded — but the persisted MR status is still `Open`: `unpack` only closes
the in-memory value and never writes the closed status back. -/
theorem C1_multi_commit_close_not_persisted :
    (MonoRepo.unpack repoFresh baseStore [entryC1, entryC2]).map
      (fun s => (s.mrs.map (fun m => (m.path, m.status)),
                 s.conversations.map (fun c => c.comment),
                 s.objects)) =
    some ([(["a"], MergeStatus.opened)],
          [some "Mega closed MR due to multi commit detected"],
          [entryC1, entryC2]) := rfl

/-- C2 counterexample: for the root path `"/"` the resolver returns the root
tree as sole element of the ancestors list (the list is seeded with it), not
an empty ancestors list as claimed. -/
theorem C2_root_ancestors_nonempty :
    search_tree_by_path baseStore [] = some (.ok ([rootTree], rootTree)) ∧
    ([rootTree] : List Tree) ≠ [] := ⟨rfl, by simp⟩

/-- C2 (amended): for `"/"` the resolver returns ancestors `[root]` and the
root tree as target; for every deeper resolvable path the root tree is the
first element of ancestors and the chain has exactly one tree per path
component, the target (fetched for the last component) not being appended. -/
theorem C2_resolver_root_and_depth (s : Store) (rr : MegaRef) (row : MegaTreeRow)
    (h1 : get_ref s [] = some rr)
    (h2 : get_tree_by_hash s rr.ref_tree_hash = some row) :
    search_tree_by_path s [] = some (.ok ([row.toTree], row.toTree)) ∧
    ∀ (p : MPath) (anc : List Tree) (tgt : Tree), p ≠ [] →
      search_tree_by_path s p = some (.ok (anc, tgt)) →
      anc.head? = some row.toTree ∧ anc.length = p.length := by
  constructor
  · simp [search_tree_by_path, h1, h2, search_loop]
  · intro p anc tgt hp h
    simp only [search_tree_by_path, h1, h2] at h
    obtain ⟨ext, hanc, hlen⟩ :=
      (search_loop_shape p s row.toTree [row.toTree] anc tgt h).2 hp
    subst hanc
    refine ⟨by simp, ?_⟩
    simp only [List.length_append, List.length_cons, List.length_nil]
    omega

/-- C2 witness: the amended statement evaluated on the concrete base store,
at the root path and at the depth-one path `/a`. -/
theorem C2_resolver_witness :
    search_tree_by_path baseStore [] = some (.ok ([rootTree], rootTree)) ∧
    ([rootTree].head? = some rootTree ∧
      ([rootTree] : List Tree).length = (["a"] : MPath).length) := by
  have h := C2_resolver_root_and_depth baseStore
    { path := [], ref_name := MEGA_BRANCH_NAME, ref_commit_hash := rootCommit.id,
      ref_tree_hash := rootTree.id, default_branch := true }
    { tree_id := rootTree.id, tree_items := rootItems,
      commit_id := some rootCommit.id }
    rfl rfl
  exact ⟨h.1, h.2 ["a"] [rootTree] aTree (by simp) rfl⟩

/-- C3 counterexample: walking `/b`, whose matching root item is a `Blob`,
does not produce any error value (there is no `PathNotDirectory` in the
code): the resolver panics on the `unwrap` of the missing tree row, modelled
as `none`. -/
theorem C3_blob_component_panics_concretely :
    search_tree_by_path baseStore ["b"] = none ∧
    (rootTree.tree_items.find? (fun x => x.name = "b")).map (fun i => i.mode) =
      some TreeItemMode.blob := ⟨rfl, rfl⟩

/-- C3 (amended): the resolver matches items by name only; when the walk
meets a component whose matched item is a `Blob` (its id having no stored
tree row), `search_tree_by_path` aborts — it panics on the `unwrap` of the
failed tree lookup instead of returning a `PathNotDirectory` (or any other)
error. -/
theorem C3_blob_component_aborts (s : Store) (rr : MegaRef) (row : MegaTreeRow)
    (p : MPath)
    (h1 : get_ref s [] = some rr)
    (h2 : get_tree_by_hash s rr.ref_tree_hash = some row)
    (hw : WalkHitsBlob s row.toTree p) :
    search_tree_by_path s p = none := by
  simp only [search_tree_by_path, h1, h2]
  exact search_loop_hits_none hw _

/-- C3 witness: the amended statement evaluated on the concrete base store at
the blob path `/b`. -/
theorem C3_blob_component_witness : search_tree_by_path baseStore ["b"] = none :=
  C3_blob_component_aborts baseStore
    { path := [], ref_name := MEGA_BRANCH_NAME, ref_commit_hash := rootCommit.id,
      ref_tree_hash := rootTree.id, default_branch := true }
    { tree_id := rootTree.id, tree_items := rootItems,
      commit_id := some rootCommit.id }
    ["b"] rfl rfl (WalkHitsBlob.here rfl rfl rfl)

/-- C4 counterexample: a force-update push (MR from `aaaaaaaaaa` to
`bbbbbbbbbb`, push to `cccccccccc`) records a conversation built from the
MR's previous `to_hash` (`bbbbbb`) and the new one (`cccccc`); the first six
characters of the from-hash (`aaaaaa`) appear nowhere in it. -/
theorem C4_comment_lacks_from_hash :
    (MonoRepo.unpack repoForce mrStore [entryC1]).map
      (fun s => s.conversations.map (fun c => c.comment)) =
      some [some "Mega updated the mr automatic from bbbbbb to cccccc"] ∧
    ¬ List.IsInfix "aaaaaa".toList
        "Mega updated the mr automatic from bbbbbb to cccccc".toList :=
  ⟨rfl, by decide⟩

/-- C4 (amended): a force-update push (open MR, matching from-hash, different
to-hash) ingests the entries, persists the MR with the new `to_hash` and
still `Open`, and records a conversation with the first six characters of the
MR's previous `to_hash` and of the pushed `to_hash` (not of the from-hash). -/
theorem C4_force_update (repo : MonoRepo) (s : Store) (entries : List Entry)
    (mr : MergeRequest) (fh th : Hash)
    (hmr : get_open_mr s repo.path = some mr)
    (hfh : repo.from_hash = some fh)
    (hfrom : mr.from_hash = fh)
    (hth : repo.to_hash = some th)
    (hto : mr.to_hash ≠ th) :
    ∃ s', MonoRepo.unpack repo s entries = some s' ∧
      s'.objects = s.objects ++ entries ∧
      ({ mr with to_hash := th } : MergeRequest) ∈ s'.mrs ∧
      (∀ x ∈ s'.mrs, x.id = mr.id → x = { mr with to_hash := th }) ∧
      mr.status = .opened ∧
      ({ mr_id := mr.id, user_id := 0, conv_type := .comment,
         comment := some ("Mega updated the mr automatic from "
           ++ mr.to_hash.take 6 ++ " to " ++ th.take 6) } : Conversation)
        ∈ s'.conversations := by
  obtain ⟨hmem, _, hstat⟩ := get_open_mr_facts s repo.path mr hmr
  subst hfrom
  simp only [MonoRepo.unpack, MonoRepo.get_mr, hmr, hfh, hth, Option.some_bind,
    Option.bind_eq_bind, if_true, if_pos rfl, if_pos hto, save_entry_spec,
    multi_commit_check, comment_for_force_update]
  split
  · refine ⟨_, rfl, ?_, ?_, ?_, hstat, ?_⟩
    · simp [add_mr_comment, update_mr]
    · simp only [add_mr_comment, update_mr, MergeRequest.close]
      exact mem_map_update _ mr _ hmem rfl
    · intro x hx hid
      simp only [add_mr_comment, update_mr, MergeRequest.close] at hx
      exact map_update_unique _ _ x hx hid
    · simp [add_mr_comment, update_mr]
  · refine ⟨_, rfl, ?_, ?_, ?_, hstat, ?_⟩
    · simp [add_mr_comment, update_mr]
    · simp only [add_mr_comment, update_mr, MergeRequest.close]
      exact mem_map_update _ mr _ hmem rfl
    · intro x hx hid
      simp only [add_mr_comment, update_mr, MergeRequest.close] at hx
      exact map_update_unique _ _ x hx hid
    · simp [add_mr_comment, update_mr]

/-- C4 witness: the amended statement evaluated on the concrete
force-update fixture. -/
theorem C4_force_update_witness :
    ∃ s', MonoRepo.unpack repoForce mrStore [entryC1] = some s' ∧
      s'.objects = mrStore.objects ++ [entryC1] ∧
      ({ mrOpenA with to_hash := "cccccccccc" } : MergeRequest) ∈ s'.mrs ∧
      (∀ x ∈ s'.mrs, x.id = mrOpenA.id →
        x = { mrOpenA with to_hash := "cccccccccc" }) ∧
      mrOpenA.status = .opened ∧
      ({ mr_id := mrOpenA.id, user_id := 0, conv_type := .comment,
         comment := some ("Mega updated the mr automatic from "
           ++ mrOpenA.to_hash.take 6 ++ " to "
           ++ ("cccccccccc" : Hash).take 6) } : Conversation)
        ∈ s'.conversations :=
  C4_force_update repoForce mrStore [entryC1] mrOpenA "aaaaaaaaaa" "cccccccccc"
    rfl rfl rfl rfl (by decide)

/-- C5 counterexample: a conflicting push records the conversation text
"Mega closed MR due to conflict", which neither equals nor contains the
claimed text "closed due to conflict". -/
theorem C5_conflict_text_differs :
    (MonoRepo.unpack repoConflict mrStore [entryC1]).map
      (fun s => s.conversations.map (fun c => c.comment)) =
      some [some "Mega closed MR due to conflict"] ∧
    ("Mega closed MR due to conflict" : String) ≠ "closed due to conflict" ∧
    ¬ List.IsInfix "closed due to conflict".toList
        "Mega closed MR due to conflict".toList :=
  ⟨rfl, by decide, by decide⟩

/-- C5 (amended): a push against an open MR whose `from_hash` differs from
the push's ingests nothing (the raw object table is unchanged), persists the
MR as `Closed`, and records a conversation with text "Mega closed MR due to
conflict". -/
theorem C5_conflict_closes (repo : MonoRepo) (s : Store) (entries : List Entry)
    (mr : MergeRequest) (fh : Hash)
    (hmr : get_open_mr s repo.path = some mr)
    (hfh : repo.from_hash = some fh)
    (hfrom : mr.from_hash ≠ fh) :
    ∃ s', MonoRepo.unpack repo s entries = some s' ∧
      s'.objects = s.objects ∧
      mr.close ∈ s'.mrs ∧
      (∀ x ∈ s'.mrs, x.id = mr.id → x = mr.close) ∧
      mr.close.status = .closed ∧
      ({ mr_id := mr.id, user_id := 0, conv_type := .comment,
         comment := some "Mega closed MR due to conflict" } : Conversation)
        ∈ s'.conversations := by
  obtain ⟨hmem, _, _⟩ := get_open_mr_facts s repo.path mr hmr
  simp only [MonoRepo.unpack, MonoRepo.get_mr, hmr, hfh, Option.some_bind,
    Option.bind_eq_bind, if_true, if_neg hfrom, multi_commit_check,
    show ¬ ((0 : ℕ) > 1) by decide, if_neg, if_false]
  refine ⟨_, rfl, ?_, ?_, ?_, rfl, ?_⟩
  · simp [add_mr_comment, update_mr]
  · simp only [add_mr_comment, update_mr, MergeRequest.close]
    exact mem_map_update _ mr _ hmem rfl
  · intro x hx hid
    simp only [add_mr_comment, update_mr, MergeRequest.close] at hx
    exact map_update_unique _ _ x hx hid
  · simp [add_mr_comment, update_mr, MergeRequest.close]

/-- C5 witness: the amended statement evaluated on the concrete conflicting
push fixture. -/
theorem C5_conflict_witness :
    ∃ s', MonoRepo.unpack repoConflict mrStore [entryC1] = some s' ∧
      s'.objects = mrStore.objects ∧
      mrOpenA.close ∈ s'.mrs ∧
      (∀ x ∈ s'.mrs, x.id = mrOpenA.id → x = mrOpenA.close) ∧
      mrOpenA.close.status = .closed ∧
      ({ mr_id := mrOpenA.id, user_id := 0, conv_type := .comment,
         comment := some "Mega closed MR due to conflict" } : Conversation)
        ∈ s'.conversations :=
  C5_conflict_closes repoConflict mrStore [entryC1] mrOpenA "dddddddddd"
    rfl rfl (by decide)

/-- C6: for a subpath with no existing ref, `head_hash` synthesizes a commit
with no parents whose tree is the reached subtree, with the fixed
maintenance message, persists both the commit and a ref
`(subpath, commit id, subtree id)`, and returns exactly one default-flagged
ref named with the default branch name; when the walk fails on a missing
name, it returns an empty ref list without writing. -/
theorem C6_head_hash_synthesizes (repo : MonoRepo) (s : Store) (rr : MegaRef)
    (commit : Commit) (row : MegaTreeRow)
    (h0 : get_ref s repo.path = none)
    (h1 : get_ref s [] = some rr)
    (h2 : get_commit_by_hash s rr.ref_commit_hash = some commit)
    (h3 : get_tree_by_hash s commit.tree_id = some row) :
    (∀ tree, head_walk s row.toTree repo.path = some (some tree) →
      ∃ c s', c.parent_commit_ids = [] ∧ c.tree_id = tree.id ∧
        c.message = "This commit was generated by mega for maintain refs" ∧
        repo.head_hash s =
          some ([{ ref_name := MEGA_BRANCH_NAME, ref_hash := c.id,
                   default_branch := true }], s') ∧
        ({ path := repo.path, ref_name := MEGA_BRANCH_NAME,
           ref_commit_hash := c.id, ref_tree_hash := tree.id,
           default_branch := true } : MegaRef) ∈ s'.refs ∧
        c ∈ s'.commits) ∧
    (head_walk s row.toTree repo.path = some none →
      repo.head_hash s = some ([], s)) := by
  constructor
  · intro tree hw
    refine ⟨Commit.from_tree_id tree.id []
        "This commit was generated by mega for maintain refs",
      save_mega_commits (save_ref s repo.path
        (Commit.from_tree_id tree.id []
          "This commit was generated by mega for maintain refs").id
        (Commit.from_tree_id tree.id []
          "This commit was generated by mega for maintain refs").tree_id)
        [Commit.from_tree_id tree.id []
          "This commit was generated by mega for maintain refs"],
      rfl, rfl, rfl, ?_, ?_, ?_⟩
    · simp [MonoRepo.head_hash, h0, h1, h2, h3, hw]
    · simp [save_mega_commits, save_ref, Commit.from_tree_id, Commit.new]
    · simp [save_mega_commits]
  · intro hw
    simp [MonoRepo.head_hash, h0, h1, h2, h3, hw]

/-- C6 witness: on the concrete base store, `head_hash` for the unreferenced
subpath `/a` synthesizes and persists the maintenance commit and ref. -/
theorem C6_head_hash_witness :
    ∃ c s', c.parent_commit_ids = [] ∧ c.tree_id = aTree.id ∧
      c.message = "This commit was generated by mega for maintain refs" ∧
      MonoRepo.head_hash repoA baseStore =
        some ([{ ref_name := MEGA_BRANCH_NAME, ref_hash := c.id,
                 default_branch := true }], s') ∧
      ({ path := ["a"], ref_name := MEGA_BRANCH_NAME, ref_commit_hash := c.id,
         ref_tree_hash := aTree.id, default_branch := true } : MegaRef)
        ∈ s'.refs ∧
      c ∈ s'.commits :=
  (C6_head_hash_synthesizes repoA baseStore
    { path := [], ref_name := MEGA_BRANCH_NAME, ref_commit_hash := rootCommit.id,
      ref_tree_hash := rootTree.id, default_branch := true }
    rootCommit
    { tree_id := rootTree.id, tree_items := rootItems,
      commit_id := some rootCommit.id }
    rfl rfl rfl rfl).1 aTree rfl

/-- C7: `head_hash` is idempotent — if a call returns a ref list and a store,
calling again on that store returns the same ref list and leaves the store
unchanged; in particular a synthesized ref is found by the second call. -/
theorem C7_head_hash_idempotent (repo : MonoRepo) (s : Store)
    (refs : List Refs) (s' : Store)
    (h : repo.head_hash s = some (refs, s')) :
    repo.head_hash s' = some (refs, s') := by
  rcases hg : get_ref s repo.path with _ | r
  · rcases h1 : get_ref s [] with _ | rr
    · simp [MonoRepo.head_hash, hg, h1] at h
    · rcases h2 : get_commit_by_hash s rr.ref_commit_hash with _ | commit
      · simp [MonoRepo.head_hash, hg, h1, h2] at h
      · rcases h3 : get_tree_by_hash s commit.tree_id with _ | row
        · simp [MonoRepo.head_hash, hg, h1, h2, h3] at h
        · rcases hw : head_walk s row.toTree repo.path with _ | ot
          · simp [MonoRepo.head_hash, hg, h1, h2, h3, hw] at h
          · rcases ot with _ | tree
            · simp only [MonoRepo.head_hash, hg, h1, h2, h3, hw,
                Option.some.injEq, Prod.mk.injEq] at h
              obtain ⟨hrefs, hs⟩ := h
              subst hrefs
              subst hs
              simp [MonoRepo.head_hash, hg, h1, h2, h3, hw]
            · simp only [MonoRepo.head_hash, hg, h1, h2, h3, hw,
                Option.some.injEq, Prod.mk.injEq] at h
              obtain ⟨hrefs, hs⟩ := h
              subst hrefs
              subst hs
              have hfound := get_ref_save_ref_self s repo.path
                (Commit.from_tree_id tree.id []
                  "This commit was generated by mega for maintain refs").id
                (Commit.from_tree_id tree.id []
                  "This commit was generated by mega for maintain refs").tree_id
                hg
              simp only [MonoRepo.head_hash, get_ref_save_mega_commits, hfound,
                megaRefToRefs]
  · simp only [MonoRepo.head_hash, hg, Option.some.injEq, Prod.mk.injEq] at h
    obtain ⟨hrefs, hs⟩ := h
    subst hrefs
    subst hs
    simp [MonoRepo.head_hash, hg]

/-- C7 witness: the first call on the base store synthesizes the `/a` ref;
the theorem applied to it shows the second call returns the identical result
on the resulting store. -/
theorem C7_head_hash_witness :
    MonoRepo.head_hash repoA storeAfterHeadA = some (refsAfterHeadA, storeAfterHeadA) :=
  C7_head_hash_idempotent repoA baseStore refsAfterHeadA storeAfterHeadA rfl

/-- C8: whenever `merge_mr` returns a result, it succeeds exactly when an
open MR with the given id exists and its `from_hash` equals the current ref
commit hash at the MR's path; a hash mismatch fails with "ref hash conflict"
and a missing open MR fails with "Invalid mr id", both leaving the store
unchanged; on success the MR row is persisted as `Merged` and a `Merged`
conversation is recorded. -/
theorem C8_merge_mr_outcomes (s : Store) (op : MergeOperation)
    (res : MergeResult) (s' : Store)
    (h : merge_mr s op = some (res, s')) :
    (res.result = true ↔ ∃ mr refv, get_open_mr_by_id s op.mr_id = some mr ∧
        get_ref s mr.path = some refv ∧ mr.from_hash = refv.ref_commit_hash) ∧
    (∀ mr refv, get_open_mr_by_id s op.mr_id = some mr →
        get_ref s mr.path = some refv → mr.from_hash ≠ refv.ref_commit_hash →
        res = { result := false, err_message := "ref hash conflict" } ∧ s' = s) ∧
    (get_open_mr_by_id s op.mr_id = none →
        res = { result := false, err_message := "Invalid mr id" } ∧ s' = s) ∧
    (res.result = true → ∀ mr, get_open_mr_by_id s op.mr_id = some mr →
        mr.merge op.comment ∈ s'.mrs ∧
        ({ mr_id := mr.id, user_id := 0, conv_type := .merged,
           comment := none } : Conversation) ∈ s'.conversations) := by
  rcases hmr : get_open_mr_by_id s op.mr_id with _ | mr
  · simp only [merge_mr, hmr, Option.some.injEq, Prod.mk.injEq] at h
    obtain ⟨hres, hs⟩ := h
    subst hres
    subst hs
    refine ⟨by simp, ?_, fun _ => ⟨rfl, rfl⟩, by simp⟩
    intro mr refv h2 _ _
    exact Option.noConfusion h2
  · have hmem : mr ∈ s.mrs := List.mem_of_find?_eq_some hmr
    have hinj : ∀ mr2 : MergeRequest, some mr = some mr2 → mr2 = mr := by
      intro mr2 h2
      exact ((Option.some.injEq _ _).mp h2).symm
    simp only [merge_mr, hmr] at h
    split at h
    · exact Option.noConfusion h
    · rename_i refv href
      split at h
      · rename_i hfh
        split at h
        · exact Option.noConfusion h
        · rename_i commit hc
          split at h
          · -- non-root MR path: tree update runs
            split at h
            · exact Option.noConfusion h
            · exact Option.noConfusion h
            · rename_i tv hsr
              split at h
              · exact Option.noConfusion h
              · rename_i s3 hup
                simp only [Option.some.injEq, Prod.mk.injEq] at h
                obtain ⟨hres, hs⟩ := h
                subst hres
                have hfr := update_parent_tree_frame _ _ _ _ _ hup
                refine ⟨⟨fun _ => ⟨mr, refv, rfl, href, hfh⟩, fun _ => rfl⟩,
                  ?_, ?_, ?_⟩
                · intro mr2 ref2 h2 hr2 hne
                  obtain rfl := hinj mr2 h2
                  rw [href] at hr2
                  obtain rfl := ((Option.some.injEq _ _).mp hr2).symm
                  exact absurd hfh hne
                · intro hn
                  exact Option.noConfusion hn
                · intro _ mr2 h2
                  obtain rfl := hinj mr2 h2
                  constructor
                  · rw [← hs]
                    simp only [remove_refs]
                    rw [hfr.1]
                    simp only [add_mr_conversation, update_mr]
                    exact mem_map_update _ mr2 _ hmem rfl
                  · rw [← hs]
                    simp only [remove_refs]
                    rw [hfr.2.1]
                    simp [add_mr_conversation, update_mr, MergeRequest.merge]
          · -- root MR path: no tree update
            simp only [Option.some.injEq, Prod.mk.injEq] at h
            obtain ⟨hres, hs⟩ := h
            subst hres
            refine ⟨⟨fun _ => ⟨mr, refv, rfl, href, hfh⟩, fun _ => rfl⟩,
              ?_, ?_, ?_⟩
            · intro mr2 ref2 h2 hr2 hne
              obtain rfl := hinj mr2 h2
              rw [href] at hr2
              obtain rfl := ((Option.some.injEq _ _).mp hr2).symm
              exact absurd hfh hne
            · intro hn
              exact Option.noConfusion hn
            · intro _ mr2 h2
              obtain rfl := hinj mr2 h2
              constructor
              · rw [← hs]
                simp only [add_mr_conversation, update_mr]
                exact mem_map_update _ mr2 _ hmem rfl
              · rw [← hs]
                simp [add_mr_conversation, update_mr, MergeRequest.merge]
      · rename_i hfh
        simp only [Option.some.injEq, Prod.mk.injEq] at h
        obtain ⟨hres, hs⟩ := h
        subst hres
        subst hs
        refine ⟨?_, fun _ _ _ _ _ => ⟨rfl, rfl⟩, ?_, by simp⟩
        · constructor
          · intro hcontra
            cases hcontra
          · rintro ⟨mr2, ref2, h2, hr2, heq⟩
            obtain rfl := hinj mr2 h2
            rw [href] at hr2
            obtain rfl := ((Option.some.injEq _ _).mp hr2).symm
            exact absurd heq hfh
        · intro hn
          exact Option.noConfusion hn

/-- C8 witness: merging the root-path MR id 3 of `rootMrStore` succeeds; the
theorem instantiated there yields the success characterization. -/
theorem C8_merge_mr_witness :
    ({ result := true, err_message := "" } : MergeResult).result = true ↔
      ∃ mr refv, get_open_mr_by_id rootMrStore (3 : Int) = some mr ∧
        get_ref rootMrStore mr.path = some refv ∧
        mr.from_hash = refv.ref_commit_hash :=
  (C8_merge_mr_outcomes rootMrStore mergeOp3
    { result := true, err_message := "" } rootMergeAfter rfl).1

/-- C9: merging the valid open MR at the depth-two path `/x/y` panics instead
of building a new root commit: the parent chain handed to
`update_parent_tree` omits the MR path's immediate parent tree (the resolver
excludes its target and `merge_mr` discards it), so the leaf name `y` is
looked up in the root tree and the `position(..).unwrap()` fails. -/
theorem C9_depth2_merge_panics :
    get_open_mr_by_id store2 9 =
      some { id := 9, path := ["x", "y"], from_hash := "synthXY",
             to_hash := mrCommit.id, status := .opened } ∧
    (get_ref store2 ["x", "y"]).map (fun r => r.ref_commit_hash) =
      some "synthXY" ∧
    merge_mr store2 mergeOp9 = none := ⟨rfl, rfl, rfl⟩

/-- C10 counterexample: a successful merge of an MR at the root path `"/"`
leaves the `"/"` ref unchanged (the tree-update and ref-cleanup branch is
skipped for the root path), and the synthetic ref at `/a` — whose path has
`"/"` as prefix and which is not the `"/"` ref — survives. -/
theorem C10_root_merge_no_advance :
    merge_mr rootMrStore mergeOp3 =
      some ({ result := true, err_message := "" }, rootMergeAfter) ∧
    get_ref rootMergeAfter [] = get_ref rootMrStore [] ∧
    (∃ r ∈ rootMergeAfter.refs, r.path ≠ [] ∧
      ([] : MPath).isPrefixOf r.path = true) :=
  ⟨rfl, rfl, by decide⟩

/-- C10 (amended): after a successful merge of an open MR at a
single-component path `p = [a]`, the `"/"` ref has advanced (its commit hash
differs from before the merge) and no ref remains whose path has `p` as
prefix. -/
theorem C10_merge_depth1_refs (s : Store) (op : MergeOperation)
    (mr : MergeRequest) (a : String) (res : MergeResult) (s' : Store)
    (hmr : get_open_mr_by_id s op.mr_id = some mr)
    (hpath : mr.path = [a])
    (h : merge_mr s op = some (res, s'))
    (hres : res.result = true) :
    (∃ oldr newr, get_ref s [] = some oldr ∧ get_ref s' [] = some newr ∧
      newr.ref_commit_hash ≠ oldr.ref_commit_hash) ∧
    (∀ r ∈ s'.refs, [a].isPrefixOf r.path = false) := by
  simp only [merge_mr, MergeRequest.merge, hmr] at h
  rw [hpath] at h
  split at h
  · exact Option.noConfusion h
  · rename_i refv href
    split at h
    · rename_i hfh
      split at h
      · exact Option.noConfusion h
      · rename_i commit hc
        split at h
        · -- non-root branch: the walk over the parent "/" runs
          split at h
          · exact Option.noConfusion h
          · exact Option.noConfusion h
          · rename_i tvec tsnd hsr
            split at h
            · exact Option.noConfusion h
            · rename_i s3 hup
              simp only [Option.some.injEq, Prod.mk.injEq] at h
              obtain ⟨hres2, hs⟩ := h
              rw [show List.dropLast [a] = ([] : MPath) from rfl] at hsr
              set S2 : Store := add_mr_conversation (update_mr s
                { id := mr.id, path := [a], from_hash := mr.from_hash,
                  to_hash := mr.to_hash, status := MergeStatus.merged })
                mr.id 0 ConvType.merged with hS2
              rcases hrr : get_ref s [] with _ | rr2
              · have hrr2 : get_ref S2 [] = none := hrr
                simp only [search_tree_by_path, hrr2] at hsr
                exact Option.noConfusion hsr
              · have hrr2 : get_ref S2 [] = some rr2 := hrr
                rcases hrow : get_tree_by_hash s rr2.ref_tree_hash with _ | row2
                · have hrow2 : get_tree_by_hash S2 rr2.ref_tree_hash = none :=
                    hrow
                  simp only [search_tree_by_path, hrr2, hrow2] at hsr
                  exact Option.noConfusion hsr
                · have hrow2 : get_tree_by_hash S2 rr2.ref_tree_hash
                      = some row2 := hrow
                  simp only [search_tree_by_path, hrr2, hrow2, search_loop,
                    Option.some.injEq, Except.ok.injEq, Prod.mk.injEq] at hsr
                  obtain ⟨htv, _⟩ := hsr
                  subst htv
                  rcases hset : setItemHash row2.toTree.tree_items a
                      commit.tree_id with _ | items
                  · rw [update_parent_tree_depth1_none S2 a row2.toTree commit
                      hset] at hup
                    exact Option.noConfusion hup
                  · rw [update_parent_tree_depth1 S2 a row2.toTree commit rr2
                      items hrr2 hset] at hup
                    obtain rfl := ((Option.some.injEq _ _).mp hup).symm
                    constructor
                    · refine ⟨rr2, { rr2 with
                        ref_commit_hash := (Commit.new commit.author
                          commit.committer (Tree.from_tree_items items).id
                          [rr2.ref_commit_hash] commit.message).id
                        ref_tree_hash := (Tree.from_tree_items items).id },
                        rfl, ?_, ?_⟩
                      · rw [← hs]
                        rw [get_ref_remove_refs_root _ a []]
                        show get_ref (update_ref S2 _) [] = _
                        exact get_ref_update_ref_found S2 [] rr2 _ hrr2 rfl
                      · show commitHash _ _ _ _ _ ≠ rr2.ref_commit_hash
                        exact commitHash_ne_parent _ _ _ _ _
                    · intro r hr
                      rw [← hs] at hr
                      simp only [remove_refs, List.mem_filter] at hr
                      have hb := hr.2
                      cases hcase : [a].isPrefixOf r.path
                      · rfl
                      · rw [hcase] at hb
                        cases hb
        · -- root branch is impossible: the path is [a] ≠ []
          rename_i hcontra
          simp at hcontra
    · -- from-hash mismatch: the result is a failure, contradicting success
      rename_i hfh
      simp only [Option.some.injEq, Prod.mk.injEq] at h
      obtain ⟨hres2, _⟩ := h
      rw [← hres2] at hres
      cases hres

/-- C10 witness: the amended statement evaluated on the concrete depth-one
merge of MR 7 (which removes the `/a` and `/a/sub` refs and advances `"/"`). -/
theorem C10_merge_depth1_witness :
    (∃ oldr newr, get_ref mergeStore [] = some oldr ∧
      get_ref depth1After [] = some newr ∧
      newr.ref_commit_hash ≠ oldr.ref_commit_hash) ∧
    (∀ r ∈ depth1After.refs, ["a"].isPrefixOf r.path = false) :=
  C10_merge_depth1_refs mergeStore mergeOp7 mrA7 "a"
    { result := true, err_message := "" } depth1After rfl rfl rfl rfl

end Mega
